import Mathlib

/-!
Shallow embedding of the Drone-Jamming reference program
(src/tempCodeRunnerFile.py) for checking its natural-language
specification.

Modelling conventions:
* Python strings are modelled as lists of Unicode code points (`List ℕ`).
* The ambient randomness of `random.choice` / `np.random.normal` is made
  explicit: integer draws arrive as a finite stream `List ℕ` that each
  channel operation consumes, and Gaussian draws arrive as a function
  `ℕ → ℝ`.  Exhaustion of the integer stream is a modelling artifact and
  surfaces as the error `PyError.choiceFailed`; theorems about a
  monitoring cycle are stated for cycles that complete (`Except.ok`).
* Python floats are modelled as real numbers, so the signal-processing
  definitions (`generate_signal`, `dft`, `detect_anomaly`) are
  noncomputable; everything else is executable.
* Exceptions are modelled with `Except PyError`.
* Each observable operation of a monitoring cycle additionally records an
  `Event`, mirroring the log/print statements of the source; the trace is
  an observability shim and does not influence control flow.
-/

/-- Python-level failures relevant to the program: `invalidInput` models the
numpy error on an empty array, `dimensionMismatch` the scikit-learn
feature-count `ValueError`, `decryptionFailed` the Fernet `InvalidToken`,
and `choiceFailed` models `random.choice` on an empty sequence or an
exhausted model randomness stream. -/
inductive PyError where
  | invalidInput
  | dimensionMismatch
  | decryptionFailed
  | choiceFailed
deriving DecidableEq, Repr

/-- Observable events of one monitoring cycle, mirroring the log/print
statements of the source: the anomaly score (with its boolean verdict), the
classifier verdict, a reactive channel switch (`switch_channel`, recording
old and new channel), a frequency hop (`frequency_hopping`), entry into
`recovery_strategy`, message encryption, and message decryption (recording
the decrypted code points). -/
inductive Event where
  | scoreE (anomalous : Bool)
  | classifyE (jammed : Bool)
  | switchE (oldCh newCh : ℕ)
  | hopE (oldCh newCh : ℕ)
  | recoveryE
  | encryptE
  | decryptE (message : List ℕ)
deriving DecidableEq, Repr

/-! ### Fernet model (cryptography.fernet)

The source delegates encryption to the `Fernet` library object created by
`setup_encryption` (lines 89-94).  Fernet is authenticated symmetric
encryption: decryption with the generating key returns the original
plaintext, while a wrong key or any tampering of the token is rejected
(`InvalidToken`).  We model a key as a natural number and a token as a
payload (an injective encoding of the plaintext) together with an
authentication tag binding key and payload. -/

/-- Radix for encoding code points; `2 ^ 21` exceeds the largest Unicode
code point `0x10FFFF`, so every Python string is a list of naturals below
this bound. -/
def B21 : ℕ := 2097152

/-- Positional encoding of a code-point list into a single natural number;
injective on lists whose entries are below `B21`. -/
def encodeMsg : List ℕ → ℕ
  | [] => 0
  | c :: cs => 1 + c + B21 * encodeMsg cs

/-- Fuel-driven inverse of `encodeMsg`; the fuel only bounds the recursion
depth. -/
def decodeMsgAux : ℕ → ℕ → List ℕ
  | 0, _ => []
  | _ + 1, 0 => []
  | f + 1, n + 1 => (n % B21) :: decodeMsgAux f (n / B21)

/-- Decoding of a natural number back into a code-point list. -/
def decodeMsg (n : ℕ) : List ℕ :=
  decodeMsgAux n n

/-- A Fernet token: the encoded plaintext plus an authentication tag that
binds the key to the payload. -/
structure Ciphertext where
  payload : ℕ
  tag : ℕ
deriving DecidableEq, Repr

/-- Embeds `encrypt_message` (source lines 97-101): `cipher_suite.encrypt`
of the Fernet object, modelled as the encoded plaintext authenticated by
`Nat.pair` of key and payload. -/
def encrypt_message (cipher_suite : ℕ) (message : List ℕ) : Ciphertext :=
  ⟨encodeMsg message, Nat.pair cipher_suite (encodeMsg message)⟩

/-- Embeds `decrypt_message` (source lines 103-107): `cipher_suite.decrypt`
verifies the authentication tag against the key and the received payload;
a mismatch is Fernet's `InvalidToken`, surfaced as `decryptionFailed`. -/
def decrypt_message (cipher_suite : ℕ) (c : Ciphertext) : Except PyError (List ℕ) :=
  if c.tag = Nat.pair cipher_suite c.payload then .ok (decodeMsg c.payload)
  else .error .decryptionFailed

/-- The fixed confirmation message `"Drone communication secured."` of
`monitor_and_respond` (source line 134), as ASCII code points. -/
def confirmation_message : List ℕ :=
  [68, 114, 111, 110, 101, 32, 99, 111, 109, 109, 117, 110, 105, 99, 97,
   116, 105, 111, 110, 32, 115, 101, 99, 117, 114, 101, 100, 46]

/-! ### Communication channels -/

/-- Embeds the state of class `CommunicationChannel` (source lines 57-63):
the channel list (set to `[1,2,3,4,5]` by `__init__`) and the current
channel. -/
structure CommunicationChannel where
  channels : List ℕ
  current_channel : ℕ
deriving DecidableEq, Repr

/-- Embeds `random.choice` on a list: the next draw of the stream picks an
index modulo the length.  An empty sequence raises (`IndexError` in
Python); an exhausted stream is the modelling artifact `choiceFailed`. -/
def pyChoice (l : List ℕ) (rng : List ℕ) : Except PyError (ℕ × List ℕ) :=
  match rng with
  | [] => .error .choiceFailed
  | r :: rest =>
    if h : 0 < l.length then .ok (l.get ⟨r % l.length, Nat.mod_lt r h⟩, rest)
    else .error .choiceFailed

/-- Embeds `CommunicationChannel.switch_channel` (source lines 65-69):
pick a random member of the channels other than the current one, make it
current.  The Python method has no `return` statement, so its value is
`None`, modelled as the first component `(none : Option ℕ)`. -/
def switch_channel (ch : CommunicationChannel) (rng : List ℕ) :
    Except PyError (Option ℕ × CommunicationChannel × List ℕ × List Event) :=
  let available := ch.channels.filter (fun c => c != ch.current_channel)
  match pyChoice available rng with
  | .error e => .error e
  | .ok (c, rng') =>
    .ok (none, { ch with current_channel := c }, rng',
         [.switchE ch.current_channel c])

/-- Embeds the retry loop of `frequency_hopping` (source lines 73-75):
`new_channel = random.choice(self.channels)` redrawn `while new_channel ==
self.current_channel`, consuming the draw stream. -/
def hopDraw (channels : List ℕ) (current : ℕ) : List ℕ → Except PyError (ℕ × List ℕ)
  | [] => .error .choiceFailed
  | r :: rest =>
    if h : 0 < channels.length then
      let c := channels.get ⟨r % channels.length, Nat.mod_lt r h⟩
      if c = current then hopDraw channels current rest else .ok (c, rest)
    else .error .choiceFailed

/-- Embeds `CommunicationChannel.frequency_hopping` (source lines 72-78):
redraw until the new channel differs from the current one, then make it
current.  No `return` statement in the source, so the Python value is
`None`. -/
def frequency_hopping (ch : CommunicationChannel) (rng : List ℕ) :
    Except PyError (Option ℕ × CommunicationChannel × List ℕ × List Event) :=
  match hopDraw ch.channels ch.current_channel rng with
  | .error e => .error e
  | .ok (c, rng') =>
    .ok (none, { ch with current_channel := c }, rng',
         [.hopE ch.current_channel c])

/-- Embeds `CommunicationChannel.recovery_strategy` (source lines 81-86):
print the recovery notice, then `switch_channel`. -/
def recovery_strategy (ch : CommunicationChannel) (rng : List ℕ) :
    Except PyError (Option ℕ × CommunicationChannel × List ℕ × List Event) :=
  match switch_channel ch rng with
  | .error e => .error e
  | .ok (_, ch', rng', tr) => .ok (none, ch', rng', .recoveryE :: tr)

/-! ### Classifier -/

/-- Models the fitted scikit-learn `RandomForestClassifier` of
`train_jamming_detector` (source lines 35-46) as a black box: the number
of features it was fitted on (500 in the program) and its decision
function mapping a sample to a label.  The learned decision function is
opaque; only the dimension contract matters for the spec. -/
structure ClassifierModel where
  n_features : ℕ
  decision : List ℝ → ℕ

/-- Models `clf.predict` of scikit-learn on a batch of samples: the
library validates that each row has the number of features seen during
fit and raises a `ValueError` (here `dimensionMismatch`) otherwise; it
never truncates or pads. -/
def model_predict (clf : ClassifierModel) (batch : List (List ℝ)) :
    Except PyError (List ℕ) :=
  if batch.all (fun s => s.length == clf.n_features) then
    .ok (batch.map clf.decision)
  else .error .dimensionMismatch

/-- Embeds `detect_jamming_pattern` (source lines 49-55):
`clf.predict([signal])`, then test whether `prediction[0] == 1`. -/
def detect_jamming_pattern (clf : ClassifierModel) (signal : List ℝ) :
    Except PyError Bool :=
  match model_predict clf [signal] with
  | .error e => .error e
  | .ok preds => .ok (preds.headD 0 == 1)

/-! ### Signal generation and anomaly scoring -/

open scoped Real

/-- Embeds `np.linspace(0, 1, 500)` (source line 17): 500 evenly spaced
points from 0 to 1, endpoint included, so the i-th point is `i / 499`. -/
noncomputable def time_points (i : ℕ) : ℝ := (i : ℝ) / 499

/-- Embeds `generate_signal` (source lines 16-20): the sine
`sin(2π·frequency·t)` on the 500 linspace points plus `noise_level` times
the i-th Gaussian draw of the ambient stream `noise` (the distributional
Gaussian/independence properties of `np.random.normal` live outside the
embedding). -/
noncomputable def generate_signal (frequency noise_level : ℝ) (noise : ℕ → ℝ) : List ℝ :=
  (List.range 500).map
    (fun i => Real.sin (2 * π * frequency * time_points i) + noise_level * noise i)

/-- Modelled from the spec, for comparison only: the variant of
`generate_signal` the specification describes, sampling on 500 evenly
spaced points covering the half-open interval `[0,1)` (endpoint excluded),
so the i-th point is `i / 500`. -/
noncomputable def generate_signal_spec_halfopen (frequency noise_level : ℝ)
    (noise : ℕ → ℝ) : List ℝ :=
  (List.range 500).map
    (fun (i : ℕ) => Real.sin (2 * π * frequency * ((i : ℝ) / 500)) + noise_level * noise i)

/-- The k-th bin of the discrete Fourier transform computed by
`scipy.fft.fft` (source line 24): `X_k = Σ_j x_j · exp(-2πi·j·k/n)`. -/
noncomputable def dft (x : List ℝ) (k : ℕ) : ℂ :=
  ∑ j in Finset.range x.length,
    ((x.getD j 0 : ℝ) : ℂ) * Complex.exp (-(2 * (π : ℂ) * Complex.I * j * k) / x.length)

/-- Embeds `np.abs(fft(signal))` (source line 24): the magnitude
spectrum, one non-negative magnitude per bin. -/
noncomputable def fftMagnitudes (x : List ℝ) : List ℝ :=
  (List.range x.length).map (fun k => Complex.abs (dft x k))

/-- Embeds `np.max`: the maximum of a list of reals, raising (here
`none`) on an empty array. -/
noncomputable def np_max : List ℝ → Option ℝ
  | [] => none
  | x :: xs => some (xs.foldl max x)

/-- Embeds `detect_anomaly` (source lines 23-32): take the maximum FFT
magnitude; if it exceeds the threshold return `(True, max_amplitude)`,
else `(False, max_amplitude)`.  `none` models the numpy error on an empty
signal. -/
noncomputable def detect_anomaly (signal : List ℝ) (threshold : ℝ) : Option (Bool × ℝ) :=
  match np_max (fftMagnitudes signal) with
  | none => none
  | some m => if threshold < m then some (true, m) else some (false, m)

/-! ### The controller -/

/-- Embeds the state of `JamResistanceController` (source lines 110-114):
the channel object, the trained classifier (`train_jamming_detector`
fits on 500-sample signals, so the program's instance has
`n_features = 500`), and the Fernet cipher of `setup_encryption`,
modelled by its key. -/
structure JamResistanceController where
  channel : CommunicationChannel
  detector : ClassifierModel
  encryption : ℕ

/-- Embeds `JamResistanceController.monitor_and_respond` (source lines
116-138), line by line: `detect_anomaly`; if anomalous, `switch_channel`;
`detect_jamming_pattern`; if jammed, `switch_channel`;
`frequency_hopping`; `recovery_strategy`; encrypt then decrypt the fixed
confirmation message; return `max_amplitude`.  A Python exception at any
step propagates (`Except.error`) and no amplitude is returned.  The event
trace records the observable operations in execution order. -/
noncomputable def monitor_and_respond (self : JamResistanceController)
    (signal : List ℝ) (rng : List ℕ) :
    Except PyError (ℝ × JamResistanceController × List ℕ × List Event) :=
  match detect_anomaly signal 100 with
  | none => .error .invalidInput
  | some (anomaly_detected, max_amplitude) =>
    match (if anomaly_detected then switch_channel self.channel rng
           else .ok (none, self.channel, rng, [])) with
    | .error e => .error e
    | .ok (_, ch1, rng1, tr1) =>
      match detect_jamming_pattern self.detector signal with
      | .error e => .error e
      | .ok jam =>
        match (if jam then switch_channel ch1 rng1
               else .ok (none, ch1, rng1, [])) with
        | .error e => .error e
        | .ok (_, ch2, rng2, tr2) =>
          match frequency_hopping ch2 rng2 with
          | .error e => .error e
          | .ok (_, ch3, rng3, tr3) =>
            match recovery_strategy ch3 rng3 with
            | .error e => .error e
            | .ok (_, ch4, rng4, tr4) =>
              match decrypt_message self.encryption
                  (encrypt_message self.encryption confirmation_message) with
              | .error e => .error e
              | .ok m =>
                .ok (max_amplitude, { self with channel := ch4 }, rng4,
                     Event.scoreE anomaly_detected ::
                       (tr1 ++ Event.classifyE jam ::
                         (tr2 ++ tr3 ++ tr4 ++ [Event.encryptE, Event.decryptE m])))

/-! ### Trace observations -/

/-- Tests whether an event is an invocation of `switch_channel`. -/
def isSwitchE : Event → Bool
  | .switchE _ _ => true
  | _ => false

/-- Tests whether an event is an invocation of `frequency_hopping`. -/
def isHopE : Event → Bool
  | .hopE _ _ => true
  | _ => false

/-- Tests whether an event actually changed the current channel. -/
def isChannelChange : Event → Bool
  | .switchE o n => o != n
  | .hopE o n => o != n
  | _ => false

/-- Number of channel-changing operations recorded in a trace. -/
def numChannelChanges (t : List Event) : ℕ :=
  t.countP isChannelChange

/-- The cycle shape asserted by the specification: score, then classify,
then at most one reactive switch, then the hop, then immediately the
securing round trip with no channel-changing operation in between. -/
def specCycleShape (t : List Event) : Prop :=
  (∃ a j o n m,
      t = [Event.scoreE a, Event.classifyE j, Event.hopE o n,
           Event.encryptE, Event.decryptE m]) ∨
  (∃ a j o1 n1 o n m,
      t = [Event.scoreE a, Event.classifyE j, Event.switchE o1 n1,
           Event.hopE o n, Event.encryptE, Event.decryptE m])

/-! ### Encoding and Fernet lemmas -/

/-- Decoding then encoding is the identity: every natural is a valid
token payload. -/
theorem encodeMsg_decodeMsgAux : ∀ f n : ℕ, n ≤ f → encodeMsg (decodeMsgAux f n) = n := by
  intro f
  induction f with
  | zero =>
    intro n hn
    obtain rfl : n = 0 := Nat.le_zero.mp hn
    rfl
  | succ f ih =>
    intro n hn
    match n with
    | 0 => rfl
    | k + 1 =>
      show encodeMsg ((k % B21) :: decodeMsgAux f (k / B21)) = k + 1
      rw [encodeMsg, ih (k / B21)
        (le_trans (Nat.div_le_self k B21) (Nat.succ_le_succ_iff.mp hn))]
      have := Nat.mod_add_div k B21
      omega

/-- Encoding then decoding recovers the message when every code point is
below the radix, for any sufficient fuel. -/
theorem decodeMsgAux_encodeMsg :
    ∀ (m : List ℕ) (f : ℕ), encodeMsg m ≤ f → (∀ c ∈ m, c < B21) →
      decodeMsgAux f (encodeMsg m) = m := by
  intro m
  induction m with
  | nil =>
    intro f _ _
    cases f <;> rfl
  | cons c cs ih =>
    intro f hf hvalid
    have hc : c < B21 := hvalid c (List.mem_cons_self _ _)
    have henc : encodeMsg (c :: cs) = (c + B21 * encodeMsg cs) + 1 := by
      rw [encodeMsg]; omega
    match f with
    | 0 =>
      exfalso
      rw [henc] at hf
      omega
    | f' + 1 =>
      rw [henc]
      show ((c + B21 * encodeMsg cs) % B21) :: decodeMsgAux f' ((c + B21 * encodeMsg cs) / B21)
          = c :: cs
      have h1 : encodeMsg cs ≤ B21 * encodeMsg cs :=
        Nat.le_mul_of_pos_left _ (by norm_num [B21])
      have hf' : c + B21 * encodeMsg cs ≤ f' := by
        rw [henc] at hf; omega
      rw [Nat.add_mul_mod_self_left, Nat.mod_eq_of_lt hc,
        Nat.add_mul_div_left _ _ (show 0 < B21 by norm_num [B21]),
        Nat.div_eq_of_lt hc, Nat.zero_add,
        ih f' (by omega) (fun x hx => hvalid x (List.mem_cons_of_mem _ hx))]

/-- Round trip of the message encoding on valid code-point lists. -/
theorem decodeMsg_encodeMsg (m : List ℕ) (hm : ∀ c ∈ m, c < B21) :
    decodeMsg (encodeMsg m) = m :=
  decodeMsgAux_encodeMsg m (encodeMsg m) le_rfl hm

/-- Every payload is reproduced by encoding its decoding. -/
theorem encodeMsg_decodeMsg (n : ℕ) : encodeMsg (decodeMsg n) = n :=
  encodeMsg_decodeMsgAux n n le_rfl

/-- The confirmation message consists of valid code points. -/
theorem confirmation_message_valid : ∀ c ∈ confirmation_message, c < B21 := by
  decide

/-- Fernet round trip: decrypting with the encrypting key returns the
message. -/
theorem decrypt_encrypt (key : ℕ) (m : List ℕ) (hm : ∀ c ∈ m, c < B21) :
    decrypt_message key (encrypt_message key m) = .ok m := by
  unfold decrypt_message encrypt_message
  simp [decodeMsg_encodeMsg m hm]

/-- Fernet with a wrong key rejects the token. -/
theorem decrypt_wrong_key (key k2 : ℕ) (m : List ℕ) (h : k2 ≠ key) :
    decrypt_message k2 (encrypt_message key m) = .error .decryptionFailed := by
  unfold decrypt_message encrypt_message
  rw [if_neg]
  intro hEq
  exact h (((Nat.pair_eq_pair).mp hEq.symm).1)

/-- Fernet rejects every token that is not an honest encryption under the
key (tampering detection). -/
theorem decrypt_tampered (key : ℕ) (c : Ciphertext)
    (h : ∀ m, c ≠ encrypt_message key m) :
    decrypt_message key c = .error .decryptionFailed := by
  unfold decrypt_message
  rw [if_neg]
  intro htag
  apply h (decodeMsg c.payload)
  cases c with
  | mk payload tag =>
    simp only [encrypt_message, encodeMsg_decodeMsg]
    simp only at htag
    rw [htag]

/-! ### Maximum lemmas for `np_max` -/

/-- The fold computing `np.max` yields an element of the list or the
seed, bounds the seed, and bounds every element. -/
theorem foldl_max_spec (xs : List ℝ) (a : ℝ) :
    (xs.foldl max a = a ∨ xs.foldl max a ∈ xs) ∧
      a ≤ xs.foldl max a ∧ ∀ x ∈ xs, x ≤ xs.foldl max a := by
  induction xs generalizing a with
  | nil => simp
  | cons x xs ih =>
    simp only [List.foldl_cons]
    obtain ⟨hmem, hle, hall⟩ := ih (max a x)
    refine ⟨?_, le_trans (le_max_left a x) hle, ?_⟩
    · rcases hmem with h | h
      · rcases max_choice a x with hm | hm
        · left; rw [h, hm]
        · right; rw [h, hm]; exact List.mem_cons_self _ _
      · right; exact List.mem_cons_of_mem _ h
    · intro y hy
      rcases List.mem_cons.mp hy with rfl | hy
      · exact le_trans (le_max_right a _) hle
      · exact hall y hy

/-- Specification of `np_max`: a returned maximum is an element of the
list and dominates every element. -/
theorem np_max_spec (l : List ℝ) (m : ℝ) (h : np_max l = some m) :
    m ∈ l ∧ ∀ x ∈ l, x ≤ m := by
  cases l with
  | nil => exact absurd h (by simp [np_max])
  | cons x xs =>
    obtain rfl : xs.foldl max x = m := by
      simpa [np_max] using h
    obtain ⟨hmem, hle, hall⟩ := foldl_max_spec xs x
    constructor
    · rcases hmem with h | h
      · rw [h]; exact List.mem_cons_self _ _
      · exact List.mem_cons_of_mem _ h
    · intro y hy
      rcases List.mem_cons.mp hy with rfl | hy
      · exact hle
      · exact hall y hy

/-- `np.max` succeeds on every non-empty list. -/
theorem np_max_isSome (l : List ℝ) (h : l ≠ []) : ∃ m, np_max l = some m := by
  cases l with
  | nil => exact absurd rfl h
  | cons x xs => exact ⟨xs.foldl max x, rfl⟩

/-- Every FFT magnitude is non-negative. -/
theorem fftMagnitudes_nonneg (x : List ℝ) : ∀ v ∈ fftMagnitudes x, 0 ≤ v := by
  intro v hv
  obtain ⟨k, _, rfl⟩ := List.mem_map.mp hv
  exact Complex.abs.nonneg _

/-- The magnitude spectrum has one bin per sample. -/
theorem fftMagnitudes_length (x : List ℝ) : (fftMagnitudes x).length = x.length := by
  simp [fftMagnitudes]

/-! ### Channel operation lemmas -/

/-- A successful `random.choice` picks an element of the sequence. -/
theorem pyChoice_ok {l rng : List ℕ} {c : ℕ} {rest : List ℕ}
    (h : pyChoice l rng = .ok (c, rest)) : c ∈ l := by
  cases rng with
  | nil => exact absurd h (by simp [pyChoice])
  | cons r rs =>
    by_cases h0 : 0 < l.length
    · rw [pyChoice, dif_pos h0] at h
      simp only [Except.ok.injEq, Prod.mk.injEq] at h
      rw [← h.1]
      exact l.get_mem _ _
    · rw [pyChoice, dif_neg h0] at h
      exact absurd h (by simp)

/-- A completed `switch_channel` returns `None`, keeps the channel list,
moves the current channel to a different member of the list, and records
exactly one switch event. -/
theorem switch_channel_ok {ch : CommunicationChannel} {rng : List ℕ}
    {r : Option ℕ} {ch' : CommunicationChannel} {rng' : List ℕ} {tr : List Event}
    (h : switch_channel ch rng = .ok (r, ch', rng', tr)) :
    r = none ∧ ch'.channels = ch.channels ∧
      ch'.current_channel ∈ ch.channels ∧
      ch'.current_channel ≠ ch.current_channel ∧
      tr = [.switchE ch.current_channel ch'.current_channel] := by
  rw [switch_channel] at h
  cases hp : pyChoice (ch.channels.filter fun c => c != ch.current_channel) rng with
  | error e => rw [hp] at h; exact absurd h (by simp)
  | ok p =>
    obtain ⟨c, rng2⟩ := p
    rw [hp] at h
    have hc := pyChoice_ok hp
    rw [List.mem_filter, bne_iff_ne] at hc
    simp only [Except.ok.injEq, Prod.mk.injEq] at h
    obtain ⟨h1, h2, h3, h4⟩ := h
    subst h1 h2 h3 h4
    exact ⟨rfl, rfl, hc.1, hc.2, rfl⟩

/-- A successful hop redraw yields a member of the channel list that
differs from the current channel. -/
theorem hopDraw_ok :
    ∀ {rng : List ℕ} {channels : List ℕ} {current c : ℕ} {rest : List ℕ},
      hopDraw channels current rng = .ok (c, rest) → c ∈ channels ∧ c ≠ current := by
  intro rng
  induction rng with
  | nil => intro channels current c rest h; exact absurd h (by simp [hopDraw])
  | cons r rs ih =>
    intro channels current c rest h
    rw [hopDraw] at h
    by_cases h0 : 0 < channels.length
    · rw [dif_pos h0] at h
      by_cases heq : channels.get ⟨r % channels.length, Nat.mod_lt r h0⟩ = current
      · rw [if_pos heq] at h
        exact ih h
      · rw [if_neg heq] at h
        simp only [Except.ok.injEq, Prod.mk.injEq] at h
        rw [← h.1]
        exact ⟨channels.get_mem _ _, heq⟩
    · rw [dif_neg h0] at h
      exact absurd h (by simp)

/-- A completed `frequency_hopping` returns `None`, keeps the channel
list, moves the current channel to a different member, and records exactly
one hop event. -/
theorem frequency_hopping_ok {ch : CommunicationChannel} {rng : List ℕ}
    {r : Option ℕ} {ch' : CommunicationChannel} {rng' : List ℕ} {tr : List Event}
    (h : frequency_hopping ch rng = .ok (r, ch', rng', tr)) :
    r = none ∧ ch'.channels = ch.channels ∧
      ch'.current_channel ∈ ch.channels ∧
      ch'.current_channel ≠ ch.current_channel ∧
      tr = [.hopE ch.current_channel ch'.current_channel] := by
  rw [frequency_hopping] at h
  cases hp : hopDraw ch.channels ch.current_channel rng with
  | error e => rw [hp] at h; exact absurd h (by simp)
  | ok p =>
    obtain ⟨c, rng2⟩ := p
    rw [hp] at h
    have hc := hopDraw_ok hp
    simp only [Except.ok.injEq, Prod.mk.injEq] at h
    obtain ⟨h1, h2, h3, h4⟩ := h
    subst h1 h2 h3 h4
    exact ⟨rfl, rfl, hc.1, hc.2, rfl⟩

/-- A completed `recovery_strategy` performs exactly one `switch_channel`
away from the current channel, after the recovery notice. -/
theorem recovery_strategy_ok {ch : CommunicationChannel} {rng : List ℕ}
    {r : Option ℕ} {ch' : CommunicationChannel} {rng' : List ℕ} {tr : List Event}
    (h : recovery_strategy ch rng = .ok (r, ch', rng', tr)) :
    r = none ∧ ch'.channels = ch.channels ∧
      ch'.current_channel ∈ ch.channels ∧
      ch'.current_channel ≠ ch.current_channel ∧
      tr = [.recoveryE, .switchE ch.current_channel ch'.current_channel] := by
  rw [recovery_strategy] at h
  cases hs : switch_channel ch rng with
  | error e => rw [hs] at h; exact absurd h (by simp)
  | ok p =>
    obtain ⟨r0, ch0, rng0, tr0⟩ := p
    rw [hs] at h
    obtain ⟨_, hch, hmem, hne, htr⟩ := switch_channel_ok hs
    simp only [Except.ok.injEq, Prod.mk.injEq] at h
    obtain ⟨h1, h2, h3, h4⟩ := h
    subst h1 h2 h3 h4
    exact ⟨rfl, hch, hmem, hne, by rw [htr]⟩

/-! ### The shape of a completed monitoring cycle -/

/-- Anatomy of every completed `monitor_and_respond` cycle: the score with
verdict `a` (whose amplitude is the returned one) is followed by a
reactive switch exactly when `a` fired, then the classifier verdict `j`,
then a reactive switch exactly when `j` fired, then the unconditional hop,
then the recovery switch away from the post-hop channel, then the securing
round trip whose decryption reproduces the confirmation message. -/
theorem monitor_ok_spec {ctrl : JamResistanceController} {signal : List ℝ}
    {rng : List ℕ} {amp : ℝ} {ctrl' : JamResistanceController} {rng' : List ℕ}
    {t : List Event}
    (h : monitor_and_respond ctrl signal rng = .ok (amp, ctrl', rng', t)) :
    ∃ (a j : Bool) (sw1 sw2 : List Event) (o1 n1 n2 : ℕ),
      detect_anomaly signal 100 = some (a, amp) ∧
      detect_jamming_pattern ctrl.detector signal = .ok j ∧
      t = Event.scoreE a :: (sw1 ++ Event.classifyE j :: (sw2 ++
            [Event.hopE o1 n1, Event.recoveryE, Event.switchE n1 n2,
             Event.encryptE, Event.decryptE confirmation_message])) ∧
      (a = false → sw1 = []) ∧
      (a = true → ∃ x y, y ≠ x ∧ sw1 = [Event.switchE x y]) ∧
      (j = false → sw2 = []) ∧
      (j = true → ∃ x y, y ≠ x ∧ sw2 = [Event.switchE x y]) ∧
      n1 ≠ o1 ∧ n2 ≠ n1 ∧
      n1 ∈ ctrl.channel.channels ∧ n2 ∈ ctrl.channel.channels ∧
      ctrl'.channel.current_channel = n2 ∧
      ctrl'.channel.channels = ctrl.channel.channels ∧
      ctrl'.detector = ctrl.detector ∧
      ctrl'.encryption = ctrl.encryption := by
  rw [monitor_and_respond] at h
  split at h
  · exact Except.noConfusion h
  rename_i a amp0 hda
  split at h
  · exact Except.noConfusion h
  rename_i r1 ch1 rng1 tr1 hs1
  split at h
  · exact Except.noConfusion h
  rename_i j hdj
  split at h
  · exact Except.noConfusion h
  rename_i r2 ch2 rng2 tr2 hs2
  split at h
  · exact Except.noConfusion h
  rename_i r3 ch3 rng3 tr3 hhop
  split at h
  · exact Except.noConfusion h
  rename_i r4 ch4 rng4 tr4 hrec
  split at h
  · rename_i e hdec
    rw [decrypt_encrypt _ _ confirmation_message_valid] at hdec
    exact Except.noConfusion hdec
  rename_i m hdec
  rw [decrypt_encrypt _ _ confirmation_message_valid] at hdec
  have hm : m = confirmation_message := by
    simpa using hdec.symm
  subst hm
  simp only [Except.ok.injEq, Prod.mk.injEq] at h
  obtain ⟨hamp, hctrl, hrng, ht⟩ := h
  obtain ⟨-, hch3, hmem3, hne3, htr3⟩ := frequency_hopping_ok hhop
  obtain ⟨-, hch4, hmem4, hne4, htr4⟩ := recovery_strategy_ok hrec
  have hcase1 : (a = false → ch1 = ctrl.channel ∧ tr1 = []) ∧
      (a = true → ch1.channels = ctrl.channel.channels ∧
        ch1.current_channel ≠ ctrl.channel.current_channel ∧
        tr1 = [Event.switchE ctrl.channel.current_channel ch1.current_channel]) := by
    cases a with
    | false =>
      refine ⟨fun _ => ?_, fun hcontra => absurd hcontra (by simp)⟩
      simp only [Bool.false_eq_true, if_false, Except.ok.injEq, Prod.mk.injEq] at hs1
      exact ⟨hs1.2.1.symm, hs1.2.2.2.symm⟩
    | true =>
      refine ⟨fun hcontra => absurd hcontra (by simp), fun _ => ?_⟩
      rw [if_pos rfl] at hs1
      obtain ⟨-, hch, -, hne, htr⟩ := switch_channel_ok hs1
      exact ⟨hch, hne, htr⟩
  have hcase2 : (j = false → ch2 = ch1 ∧ tr2 = []) ∧
      (j = true → ch2.channels = ch1.channels ∧
        ch2.current_channel ≠ ch1.current_channel ∧
        tr2 = [Event.switchE ch1.current_channel ch2.current_channel]) := by
    cases j with
    | false =>
      refine ⟨fun _ => ?_, fun hcontra => absurd hcontra (by simp)⟩
      simp only [Bool.false_eq_true, if_false, Except.ok.injEq, Prod.mk.injEq] at hs2
      exact ⟨hs2.2.1.symm, hs2.2.2.2.symm⟩
    | true =>
      refine ⟨fun hcontra => absurd hcontra (by simp), fun _ => ?_⟩
      rw [if_pos rfl] at hs2
      obtain ⟨-, hch, -, hne, htr⟩ := switch_channel_ok hs2
      exact ⟨hch, hne, htr⟩
  have hch1 : ch1.channels = ctrl.channel.channels := by
    cases a with
    | false => rw [(hcase1.1 rfl).1]
    | true => exact (hcase1.2 rfl).1
  have hch2 : ch2.channels = ch1.channels := by
    cases j with
    | false => rw [(hcase2.1 rfl).1]
    | true => exact (hcase2.2 rfl).1
  have hchans : ch2.channels = ctrl.channel.channels := hch2.trans hch1
  refine ⟨a, j, tr1, tr2, ch2.current_channel, ch3.current_channel,
    ch4.current_channel, ?_, hdj, ?_, fun ha => (hcase1.1 ha).2,
    ?_, fun hj => (hcase2.1 hj).2, ?_, hne3, hne4, ?_, ?_, ?_, ?_, ?_, ?_⟩
  · rw [hda, hamp]
  · rw [← ht, htr3, htr4]
    simp [List.append_assoc]
  · intro ha
    exact ⟨ctrl.channel.current_channel, ch1.current_channel,
      (hcase1.2 ha).2.1, (hcase1.2 ha).2.2⟩
  · intro hj
    exact ⟨ch1.current_channel, ch2.current_channel,
      (hcase2.2 hj).2.1, (hcase2.2 hj).2.2⟩
  · rw [← hchans]; exact hmem3
  · rw [← hchans, ← hch3]; exact hmem4
  · rw [← hctrl]
  · rw [← hctrl]
    show ch4.channels = ctrl.channel.channels
    rw [hch4, hch3, hchans]
  · rw [← hctrl]
  · rw [← hctrl]

/-! ### A concrete completed cycle -/

/-- A concrete classifier state for evaluating a cycle: one feature,
constant clean verdict. -/
def detector0 : ClassifierModel := ⟨1, fun _ => 0⟩

/-- A concrete controller state: channels `[1,2,3,4,5]` with current
channel 3 (as set by `__init__`), the concrete classifier, key 7. -/
def ctrl0 : JamResistanceController := ⟨⟨[1, 2, 3, 4, 5], 3⟩, detector0, 7⟩

/-- The controller state after the concrete cycle below. -/
def ctrl1 : JamResistanceController := ⟨⟨[1, 2, 3, 4, 5], 2⟩, detector0, 7⟩

/-- The event trace of the concrete cycle below. -/
def trace0 : List Event :=
  [.scoreE false, .classifyE false, .hopE 3 1, .recoveryE, .switchE 1 2,
   .encryptE, .decryptE confirmation_message]

/-- The DFT of the one-sample zero signal vanishes. -/
theorem dft_zero_single (k : ℕ) : dft [(0 : ℝ)] k = 0 := by
  simp [dft, Finset.sum_range_one]

/-- The magnitude spectrum of the one-sample zero signal. -/
theorem fftMagnitudes_zero_single : fftMagnitudes [(0 : ℝ)] = [0] := by
  simp [fftMagnitudes, dft_zero_single]

/-- Scoring the one-sample zero signal: amplitude 0, no anomaly. -/
theorem detect_anomaly_zero : detect_anomaly [(0 : ℝ)] 100 = some (false, 0) := by
  rw [detect_anomaly, fftMagnitudes_zero_single,
    show np_max [(0 : ℝ)] = some 0 from rfl]
  show (if (100 : ℝ) < 0 then some (true, (0 : ℝ)) else some (false, 0)) = some (false, 0)
  rw [if_neg (by norm_num : ¬ (100 : ℝ) < 0)]

/-- Full evaluation of one monitoring cycle of `ctrl0` on the one-sample
zero signal with draw stream `[0, 0]`: no detector fires, yet the hop and
the recovery switch still run, and the securing round trip succeeds. -/
theorem cycle0_eval :
    monitor_and_respond ctrl0 [(0 : ℝ)] [0, 0] = .ok (0, ctrl1, [], trace0) := by
  rw [monitor_and_respond, show ctrl0.encryption = 7 from rfl,
    decrypt_encrypt 7 confirmation_message confirmation_message_valid,
    detect_anomaly_zero]
  rfl

/-! ### Claim theorems -/

/-- C1 (counterexample): in the concrete completed cycle `cycle0_eval`
the observable order is NOT score → classify → (optional switch) → hop →
secure: the cycle's trace contains the recovery entry and its
channel-changing `switch_channel` between the hop and the securing round
trip, so it does not match the claimed shape `specCycleShape`. -/
theorem C1_counterexample :
    monitor_and_respond ctrl0 [(0 : ℝ)] [0, 0] = .ok (0, ctrl1, [], trace0) ∧
      ¬ specCycleShape trace0 := by
  refine ⟨cycle0_eval, ?_⟩
  rintro (⟨a, j, o, n, m, hshape⟩ | ⟨a, j, o1, n1, o, n, m, hshape⟩) <;>
    simp [trace0, confirmation_message] at hshape

/-- C1 (amended): the observable operations of every completed monitoring
cycle occur in exactly the order score → (reactive switch iff the scorer
fired) → classify → (reactive switch iff the classifier fired) → hop →
recovery switch → secure (encrypt then decrypt of the confirmation
message); in particular one channel-changing `switch_channel` (from
`recovery_strategy`) always stands between the hop and the securing
step. -/
theorem C1_cycle_order {ctrl : JamResistanceController} {signal : List ℝ}
    {rng : List ℕ} {amp : ℝ} {ctrl' : JamResistanceController} {rng' : List ℕ}
    {t : List Event}
    (h : monitor_and_respond ctrl signal rng = .ok (amp, ctrl', rng', t)) :
    ∃ (a j : Bool) (sw1 sw2 : List Event) (o1 n1 n2 : ℕ),
      t = Event.scoreE a :: (sw1 ++ Event.classifyE j :: (sw2 ++
            [Event.hopE o1 n1, Event.recoveryE, Event.switchE n1 n2,
             Event.encryptE, Event.decryptE confirmation_message])) ∧
      (a = false → sw1 = []) ∧
      (a = true → ∃ x y, y ≠ x ∧ sw1 = [Event.switchE x y]) ∧
      (j = false → sw2 = []) ∧
      (j = true → ∃ x y, y ≠ x ∧ sw2 = [Event.switchE x y]) ∧
      n2 ≠ n1 := by
  obtain ⟨a, j, sw1, sw2, o1, n1, n2, -, -, ht, h1f, h1t, h2f, h2t, -, hne2, -⟩ :=
    monitor_ok_spec h
  exact ⟨a, j, sw1, sw2, o1, n1, n2, ht, h1f, h1t, h2f, h2t, hne2⟩

/-- C1 (witness): the amended order theorem instantiated on the concrete
completed cycle. -/
theorem C1_witness :
    ∃ (a j : Bool) (sw1 sw2 : List Event) (o1 n1 n2 : ℕ),
      trace0 = Event.scoreE a :: (sw1 ++ Event.classifyE j :: (sw2 ++
            [Event.hopE o1 n1, Event.recoveryE, Event.switchE n1 n2,
             Event.encryptE, Event.decryptE confirmation_message])) ∧
      (a = false → sw1 = []) ∧
      (a = true → ∃ x y, y ≠ x ∧ sw1 = [Event.switchE x y]) ∧
      (j = false → sw2 = []) ∧
      (j = true → ∃ x y, y ≠ x ∧ sw2 = [Event.switchE x y]) ∧
      n2 ≠ n1 :=
  C1_cycle_order cycle0_eval

/-- C2 (counterexample): a completed cycle in which neither detector
fired (the trace records `scoreE false` and `classifyE false`) still
contains an invocation of `switch_channel` — the unconditional one issued
by `recovery_strategy` — refuting "not invoked at all if neither detector
fires". -/
theorem C2_counterexample :
    monitor_and_respond ctrl0 [(0 : ℝ)] [0, 0] = .ok (0, ctrl1, [], trace0) ∧
      Event.scoreE false ∈ trace0 ∧ Event.classifyE false ∈ trace0 ∧
      trace0.countP isSwitchE ≠ 0 :=
  ⟨cycle0_eval, by decide, by decide, by decide⟩

/-- C2 (amended): in every completed monitoring cycle the number of
`switch_channel` invocations is one per detector that fired plus exactly
one unconditional invocation from `recovery_strategy`: `(a ? 1 : 0) +
(j ? 1 : 0) + 1` where `a` is the scorer verdict and `j` the classifier
verdict recorded in the trace. -/
theorem C2_switch_count {ctrl : JamResistanceController} {signal : List ℝ}
    {rng : List ℕ} {amp : ℝ} {ctrl' : JamResistanceController} {rng' : List ℕ}
    {t : List Event}
    (h : monitor_and_respond ctrl signal rng = .ok (amp, ctrl', rng', t)) :
    ∃ a j : Bool,
      Event.scoreE a ∈ t ∧ Event.classifyE j ∈ t ∧
      t.countP isSwitchE =
        (if a then 1 else 0) + (if j then 1 else 0) + 1 := by
  obtain ⟨a, j, sw1, sw2, o1, n1, n2, -, -, ht, h1f, h1t, h2f, h2t, -, -, -⟩ :=
    monitor_ok_spec h
  have hc1 : sw1.countP isSwitchE = if a then 1 else 0 := by
    cases a with
    | false => rw [h1f rfl]; rfl
    | true =>
      obtain ⟨x, y, -, hsw⟩ := h1t rfl
      rw [hsw]; rfl
  have hc2 : sw2.countP isSwitchE = if j then 1 else 0 := by
    cases j with
    | false => rw [h2f rfl]; rfl
    | true =>
      obtain ⟨x, y, -, hsw⟩ := h2t rfl
      rw [hsw]; rfl
  refine ⟨a, j, by rw [ht]; simp, by rw [ht]; simp, ?_⟩
  rw [ht]
  simp only [List.countP_cons, List.countP_append, hc1, hc2, isSwitchE,
    List.countP_nil]
  cases a <;> cases j <;> simp

/-- C2 (witness): the amended count theorem instantiated on the concrete
completed cycle. -/
theorem C2_witness :
    ∃ a j : Bool,
      Event.scoreE a ∈ trace0 ∧ Event.classifyE j ∈ trace0 ∧
      trace0.countP isSwitchE =
        (if a then 1 else 0) + (if j then 1 else 0) + 1 :=
  C2_switch_count cycle0_eval

/-- C3: every completed monitoring cycle invokes `frequency_hopping`
exactly once (one hop event in the trace), unconditionally, and the cycle
changes the current channel at least once. -/
theorem C3_hop_unconditional {ctrl : JamResistanceController} {signal : List ℝ}
    {rng : List ℕ} {amp : ℝ} {ctrl' : JamResistanceController} {rng' : List ℕ}
    {t : List Event}
    (h : monitor_and_respond ctrl signal rng = .ok (amp, ctrl', rng', t)) :
    t.countP isHopE = 1 ∧ 1 ≤ numChannelChanges t := by
  obtain ⟨a, j, sw1, sw2, o1, n1, n2, -, -, ht, h1f, h1t, h2f, h2t, hne1, -, -⟩ :=
    monitor_ok_spec h
  have hc1 : sw1.countP isHopE = 0 := by
    cases a with
    | false => rw [h1f rfl]; rfl
    | true =>
      obtain ⟨x, y, -, hsw⟩ := h1t rfl
      rw [hsw]; rfl
  have hc2 : sw2.countP isHopE = 0 := by
    cases j with
    | false => rw [h2f rfl]; rfl
    | true =>
      obtain ⟨x, y, -, hsw⟩ := h2t rfl
      rw [hsw]; rfl
  constructor
  · rw [ht]
    simp [List.countP_cons, List.countP_append, hc1, hc2, isHopE]
  · have hmem : Event.hopE o1 n1 ∈ t := by rw [ht]; simp
    have hp : isChannelChange (Event.hopE o1 n1) = true :=
      bne_iff_ne.mpr (Ne.symm hne1)
    exact Nat.succ_le_of_lt (List.countP_pos_iff.mpr ⟨_, hmem, hp⟩)

/-- C3 (witness): instantiated on the concrete completed cycle. -/
theorem C3_witness : trace0.countP isHopE = 1 ∧ 1 ≤ numChannelChanges trace0 :=
  C3_hop_unconditional cycle0_eval

/-- C4: every completed monitoring cycle ends with the securing round
trip, whose decryption reproduces exactly the fixed confirmation message;
a cycle can therefore return a peak amplitude only with the round trip
verified, and a decryption failure would surface as `Except.error` with
no amplitude. -/
theorem C4_secure_roundtrip {ctrl : JamResistanceController} {signal : List ℝ}
    {rng : List ℕ} {amp : ℝ} {ctrl' : JamResistanceController} {rng' : List ℕ}
    {t : List Event}
    (h : monitor_and_respond ctrl signal rng = .ok (amp, ctrl', rng', t)) :
    ∃ pre, t = pre ++ [Event.encryptE, Event.decryptE confirmation_message] := by
  obtain ⟨a, j, sw1, sw2, o1, n1, n2, -, -, ht, -, -, -, -, -, -, -⟩ :=
    monitor_ok_spec h
  refine ⟨Event.scoreE a :: (sw1 ++ Event.classifyE j :: (sw2 ++
    [Event.hopE o1 n1, Event.recoveryE, Event.switchE n1 n2])), ?_⟩
  rw [ht]
  simp

/-- C4 (witness): instantiated on the concrete completed cycle. -/
theorem C4_witness :
    ∃ pre, trace0 = pre ++ [Event.encryptE, Event.decryptE confirmation_message] :=
  C4_secure_roundtrip cycle0_eval

/-- C10: every completed monitoring cycle changes the current channel at
least twice — the unconditional hop changes it, and `recovery_strategy`
then performs one additional `switch_channel` away from the post-hop
channel `n1`. -/
theorem C10_two_channel_changes {ctrl : JamResistanceController} {signal : List ℝ}
    {rng : List ℕ} {amp : ℝ} {ctrl' : JamResistanceController} {rng' : List ℕ}
    {t : List Event}
    (h : monitor_and_respond ctrl signal rng = .ok (amp, ctrl', rng', t)) :
    2 ≤ numChannelChanges t ∧
      ∃ pre o1 n1 n2, n1 ≠ o1 ∧ n2 ≠ n1 ∧
        t = pre ++ [Event.hopE o1 n1, Event.recoveryE, Event.switchE n1 n2,
                    Event.encryptE, Event.decryptE confirmation_message] := by
  obtain ⟨a, j, sw1, sw2, o1, n1, n2, -, -, ht, -, -, -, -, hne1, hne2, -⟩ :=
    monitor_ok_spec h
  constructor
  · have hb1 : (o1 != n1) = true := bne_iff_ne.mpr (Ne.symm hne1)
    have hb2 : (n1 != n2) = true := bne_iff_ne.mpr (Ne.symm hne2)
    rw [numChannelChanges, ht]
    simp only [List.countP_cons, List.countP_append, List.countP_nil,
      isChannelChange, hb1, hb2]
    simp only [Bool.false_eq_true, if_false, if_true]
    omega
  · refine ⟨Event.scoreE a :: (sw1 ++ Event.classifyE j :: sw2), o1, n1, n2,
      hne1, hne2, ?_⟩
    rw [ht]
    simp

/-- C10 (witness): instantiated on the concrete completed cycle. -/
theorem C10_witness :
    2 ≤ numChannelChanges trace0 ∧
      ∃ pre o1 n1 n2, n1 ≠ o1 ∧ n2 ≠ n1 ∧
        trace0 = pre ++ [Event.hopE o1 n1, Event.recoveryE, Event.switchE n1 n2,
                         Event.encryptE, Event.decryptE confirmation_message] :=
  C10_two_channel_changes cycle0_eval

/-- C5 (counterexample): the linspace grid of `generate_signal` reaches
the endpoint `t = 1` (`np.linspace(0, 1, 500)` includes the stop value),
and the last sample of the noiseless frequency-1 waveform, `sin(2π)`, is
not the value `sin(2π·499/500)` that sampling over the half-open interval
`[0,1)` would give. -/
theorem C5_counterexample :
    time_points 499 = 1 ∧
      (generate_signal 1 0 (fun _ => 0)).getD 499 0 ≠
        Real.sin (2 * π * ((499 : ℝ) / 500)) := by
  constructor
  · norm_num [time_points]
  · have hval : (generate_signal 1 0 (fun _ => 0)).getD 499 0 = 0 := by
      rw [generate_signal, List.getD_eq_getElem?_getD]
      simp only [List.getElem?_map,
        List.getElem?_range (by norm_num : (499 : ℕ) < 500)]
      have harg : 2 * π * time_points 499 = 2 * π := by
        rw [time_points]; norm_num
      simp [harg, Real.sin_two_pi]
    rw [hval]
    have h2 : Real.sin (2 * π * ((499 : ℝ) / 500)) < 0 := by
      have h3 : 2 * π * ((499 : ℝ) / 500) = 2 * π - 2 * π / 500 := by ring
      have h4 : Real.sin (2 * π - 2 * π / 500) = - Real.sin (2 * π / 500) := by
        rw [Real.sin_sub, Real.sin_two_pi, Real.cos_two_pi]; ring
      rw [h3, h4, neg_lt_zero]
      apply Real.sin_pos_of_pos_of_lt_pi
      · positivity
      · nlinarith [Real.pi_pos]
    exact (ne_of_lt h2).symm

/-- C5 (amended): for all parameters `generate_signal` returns exactly
500 samples, the i-th being `sin(2π·frequency·tᵢ) + noise_level·noiseᵢ`
on the grid `tᵢ = i/499` — 500 evenly spaced points covering the closed
interval `[0, 1]` with spacing `1/499`, endpoint included.  The Gaussian
distribution and independence of the draws are properties of the ambient
noise stream, outside the embedding. -/
theorem C5_generate_signal (frequency noise_level : ℝ) (noise : ℕ → ℝ) :
    (generate_signal frequency noise_level noise).length = 500 ∧
      (∀ i, i < 500 → (generate_signal frequency noise_level noise).getD i 0 =
        Real.sin (2 * π * frequency * time_points i) + noise_level * noise i) ∧
      time_points 0 = 0 ∧ time_points 499 = 1 ∧
      (∀ i, time_points (i + 1) - time_points i = 1 / 499) := by
  refine ⟨by simp [generate_signal], ?_, by simp [time_points],
    by norm_num [time_points], ?_⟩
  · intro i hi
    rw [generate_signal, List.getD_eq_getElem?_getD]
    simp [List.getElem?_map, List.getElem?_range hi]
  · intro i
    rw [time_points, time_points]
    push_cast
    ring

/-- C5 (witness): the amended theorem evaluated at frequency 1, zero
noise, sample 0. -/
theorem C5_witness :
    (generate_signal 1 0 (fun _ => 0)).length = 500 ∧
      (generate_signal 1 0 (fun _ => 0)).getD 0 0 =
        Real.sin (2 * π * 1 * time_points 0) + 0 * (fun _ => (0 : ℝ)) 0 :=
  ⟨(C5_generate_signal 1 0 (fun _ => 0)).1,
   (C5_generate_signal 1 0 (fun _ => 0)).2.1 0 (by norm_num)⟩

/-- C6: for every non-empty waveform and every threshold,
`detect_anomaly` returns a verdict and an amplitude in both cases; the
amplitude is the maximum magnitude of the waveform's DFT (a member of the
magnitude spectrum dominating every member), hence non-negative, and the
verdict is true exactly when the amplitude exceeds the threshold.
Determinism holds by construction: the embedding is a pure function of
the waveform and threshold. -/
theorem C6_detect_anomaly_spec (signal : List ℝ) (threshold : ℝ)
    (h : signal ≠ []) :
    ∃ verdict amp, detect_anomaly signal threshold = some (verdict, amp) ∧
      amp ∈ fftMagnitudes signal ∧ (∀ v ∈ fftMagnitudes signal, v ≤ amp) ∧
      0 ≤ amp ∧ (verdict = true ↔ threshold < amp) := by
  have hne : fftMagnitudes signal ≠ [] := by
    intro hc
    apply h
    have hlen := fftMagnitudes_length signal
    rw [hc] at hlen
    exact List.length_eq_zero.mp hlen.symm
  obtain ⟨m, hm⟩ := np_max_isSome _ hne
  obtain ⟨hmem, hall⟩ := np_max_spec _ _ hm
  have hnn : 0 ≤ m := fftMagnitudes_nonneg signal m hmem
  have hda : detect_anomaly signal threshold =
      if threshold < m then some (true, m) else some (false, m) := by
    rw [detect_anomaly, hm]
  by_cases hth : threshold < m
  · rw [hda, if_pos hth]
    exact ⟨true, m, rfl, hmem, hall, hnn, by simp [hth]⟩
  · rw [hda, if_neg hth]
    exact ⟨false, m, rfl, hmem, hall, hnn, by simp [hth]⟩

/-- C6 (witness): the scorer specification evaluated on the one-sample
zero waveform at threshold 100. -/
theorem C6_witness :
    ∃ verdict amp, detect_anomaly [(0 : ℝ)] 100 = some (verdict, amp) ∧
      amp ∈ fftMagnitudes [(0 : ℝ)] ∧ (∀ v ∈ fftMagnitudes [(0 : ℝ)], v ≤ amp) ∧
      0 ≤ amp ∧ (verdict = true ↔ (100 : ℝ) < amp) :=
  C6_detect_anomaly_spec [(0 : ℝ)] 100 (by simp)

/-- C7 (counterexample): at a concrete state both `switch_channel` and
`frequency_hopping` move the current channel to a different member (here
from 3 to 1) but their Python value is `None`, not the newly selected
channel — the methods have no `return` statement. -/
theorem C7_counterexample :
    switch_channel ⟨[1, 2, 3, 4, 5], 3⟩ [0] =
      .ok (none, ⟨[1, 2, 3, 4, 5], 1⟩, [], [.switchE 3 1]) ∧
    frequency_hopping ⟨[1, 2, 3, 4, 5], 3⟩ [0] =
      .ok (none, ⟨[1, 2, 3, 4, 5], 1⟩, [], [.hopE 3 1]) ∧
    (none : Option ℕ) ≠ some 1 :=
  ⟨rfl, rfl, by decide⟩

/-- C7 (amended): for every channel state whose current channel lies in a
channel list with at least two distinct members, every completed
`switch_channel` and every completed `frequency_hopping` set the current
channel to a member of the list different from the pre-call current
channel (the non-repeat invariant); the newly selected channel is exposed
through the state, while the Python return value is `None`. -/
theorem C7_switch_hop_invariant (ch : CommunicationChannel) (rng : List ℕ)
    (hcur : ch.current_channel ∈ ch.channels)
    (htwo : ∃ x ∈ ch.channels, ∃ y ∈ ch.channels, x ≠ y) :
    (∀ r ch' rng' tr, switch_channel ch rng = .ok (r, ch', rng', tr) →
        ch'.current_channel ∈ ch.channels ∧
        ch'.current_channel ≠ ch.current_channel ∧ r = none) ∧
    (∀ r ch' rng' tr, frequency_hopping ch rng = .ok (r, ch', rng', tr) →
        ch'.current_channel ∈ ch.channels ∧
        ch'.current_channel ≠ ch.current_channel ∧ r = none) := by
  constructor <;> intro r ch' rng' tr h
  · obtain ⟨hr, -, hmem, hne, -⟩ := switch_channel_ok h
    exact ⟨hmem, hne, hr⟩
  · obtain ⟨hr, -, hmem, hne, -⟩ := frequency_hopping_ok h
    exact ⟨hmem, hne, hr⟩

/-- C7 (witness): the invariant instantiated on a concrete switch and a
concrete hop from channel 1 of the two-channel list `[1, 2]`. -/
theorem C7_witness :
    ((2 : ℕ) ∈ [1, 2] ∧ (2 : ℕ) ≠ 1 ∧ (none : Option ℕ) = none) ∧
    ((2 : ℕ) ∈ [1, 2] ∧ (2 : ℕ) ≠ 1 ∧ (none : Option ℕ) = none) :=
  ⟨(C7_switch_hop_invariant ⟨[1, 2], 1⟩ [0] (by decide)
      ⟨1, by decide, 2, by decide, by decide⟩).1
      none ⟨[1, 2], 2⟩ [] [.switchE 1 2] rfl,
   (C7_switch_hop_invariant ⟨[1, 2], 1⟩ [1] (by decide)
      ⟨1, by decide, 2, by decide, by decide⟩).2
      none ⟨[1, 2], 2⟩ [] [.hopE 1 2] rfl⟩

/-- Helper: the token with zero payload and zero tag is not an honest
encryption under key 7. -/
theorem tampered_token_not_encrypt :
    ∀ m2, (⟨0, 0⟩ : Ciphertext) ≠ encrypt_message 7 m2 := by
  intro m2 h
  cases m2 with
  | nil =>
    rw [show encrypt_message 7 [] = ⟨0, Nat.pair 7 0⟩ from rfl] at h
    have : (0 : ℕ) = Nat.pair 7 0 := congrArg Ciphertext.tag h
    rw [show Nat.pair 7 0 = 56 from rfl] at this
    exact absurd this (by decide)
  | cons c cs =>
    have : (0 : ℕ) = encodeMsg (c :: cs) := congrArg Ciphertext.payload h
    rw [encodeMsg] at this
    omega

/-- C8: the Fernet contract — for every key and every message (a list of
Unicode code points), decrypting the encryption with the same key returns
the message; decrypting it with any other key fails with
`decryptionFailed`; and decrypting any token that is not an honest
encryption under the key (a tampered token) fails with
`decryptionFailed`. -/
theorem C8_fernet_contract (key : ℕ) (m : List ℕ) (hm : ∀ c ∈ m, c < B21) :
    decrypt_message key (encrypt_message key m) = .ok m ∧
      (∀ k2, k2 ≠ key →
        decrypt_message k2 (encrypt_message key m) = .error .decryptionFailed) ∧
      (∀ c : Ciphertext, (∀ m2, c ≠ encrypt_message key m2) →
        decrypt_message key c = .error .decryptionFailed) :=
  ⟨decrypt_encrypt key m hm,
   fun k2 hk => decrypt_wrong_key key k2 m hk,
   fun c hc => decrypt_tampered key c hc⟩

/-- C8 (witness): the contract evaluated at key 7 on the confirmation
message, with wrong key 9 and the tampered zero token. -/
theorem C8_witness :
    decrypt_message 7 (encrypt_message 7 confirmation_message) =
        .ok confirmation_message ∧
      decrypt_message 9 (encrypt_message 7 confirmation_message) =
        .error .decryptionFailed ∧
      decrypt_message 7 ⟨0, 0⟩ = .error .decryptionFailed := by
  obtain ⟨h1, h2, h3⟩ :=
    C8_fernet_contract 7 confirmation_message confirmation_message_valid
  exact ⟨h1, h2 9 (by decide), h3 ⟨0, 0⟩ tampered_token_not_encrypt⟩

/-- C9: for every classifier state and every waveform whose sample count
differs from the feature count the model was fitted on,
`detect_jamming_pattern` fails with `dimensionMismatch` and never
produces a boolean verdict (no silent truncation or padding). -/
theorem C9_dimension_mismatch (clf : ClassifierModel) (signal : List ℝ)
    (h : signal.length ≠ clf.n_features) :
    detect_jamming_pattern clf signal = .error .dimensionMismatch ∧
      ∀ b, detect_jamming_pattern clf signal ≠ .ok b := by
  have hp : model_predict clf [signal] = .error .dimensionMismatch := by
    rw [model_predict, if_neg]
    simp [h]
  rw [detect_jamming_pattern, hp]
  exact ⟨rfl, fun b => by simp⟩

/-- C9 (witness): a one-sample waveform against a two-feature model. -/
theorem C9_witness :
    detect_jamming_pattern ⟨2, fun _ => 0⟩ [(0 : ℝ)] = .error .dimensionMismatch :=
  (C9_dimension_mismatch ⟨2, fun _ => 0⟩ [(0 : ℝ)] (by decide)).1
